import Mathlib

/-!
A shallow embedding of the minreq HTTP client core.

This file embeds the core of the `minreq` crate (files `src/http.rs`,
`src/connection.rs`, `src/decoder.rs`) into Lean 4 and proves the
specification's testable properties about it.

Modelling conventions:
* Rust `String` / `&str` values are modelled as `List Char`, one `Char`
  per byte (the protocol text is ASCII); `len()` is `List.length`.
* Rust `HashMap<String, String>` is modelled as an association list with
  unique keys (`Headers`); `insert` overwrites the value of an existing
  key, `remove` deletes it.  Iteration order of the map is the list order.
* I/O streams are modelled as the finite list of bytes the stream will
  yield; `read_line` consumes a line, end of list is EOF.
* A Rust panic (e.g. `Option::unwrap` on `None`) aborts the computation;
  it is modelled as the error case of `Except Unit`.
-/

deriving instance DecidableEq for Except

namespace Minreq

/-- Rust's `pub type URL = String`; strings are byte/char lists. -/
abbrev URL := List Char

/-- Header mapping: `HashMap<String, String>` as an assoc list with unique keys. -/
abbrev Headers := List (URL × URL)

/-- `HashMap::get`: value of the first (and by invariant only) entry with this key. -/
def headerLookup : Headers → URL → Option URL
  | [], _ => none
  | (k', v) :: rest, k => if k' = k then some v else headerLookup rest k

/-- `HashMap::insert`: overwrite the value of an existing key, else add the entry. -/
def insertHeader : Headers → URL → URL → Headers
  | [], k, v => [(k, v)]
  | (k', v') :: rest, k, v =>
    if k' = k then (k', v) :: rest else (k', v') :: insertHeader rest k v

/-- `HashMap::remove`: delete the entry with this key, if any. -/
def removeHeader : Headers → URL → Headers
  | [], _ => []
  | (k', v) :: rest, k => if k' = k then rest else (k', v) :: removeHeader rest k

/-! ## `src/http.rs`: Status -/

/-- `enum Status` from `src/http.rs` (payload is the `i32` status code). -/
inductive Status where
  | Info : Int → Status
  | Success : Int → Status
  | Redirect : Int → Status
  | ClientError : Int → Status
  | ServerError : Int → Status
deriving DecidableEq, Repr

/-- `impl From<i32> for Status` (`from` is a Lean keyword, hence `fromCode`). -/
def Status.fromCode (i : Int) : Status :=
  if 100 ≤ i ∧ i < 200 then Status.Info i
  else if 200 ≤ i ∧ i < 300 then Status.Success i
  else if 300 ≤ i ∧ i < 400 then Status.Redirect i
  else if 400 ≤ i ∧ i < 500 then Status.ClientError i
  else Status.ServerError i

/-- `impl From<&Status> for i32`. -/
def Status.toCode : Status → Int
  | Status.Info i => i
  | Status.Success i => i
  | Status.Redirect i => i
  | Status.ClientError i => i
  | Status.ServerError i => i

/-! ## `src/http.rs`: parse_url -/

/-- One step of `parse_url`'s character scan: `slashes` counts `'/'`
occurrences; a non-slash char seen at `slashes == 2` goes to `first`
(the authority); after updating the count, any char at `slashes >= 3`
goes to `second` (the resource). -/
def parse_url_step (st : URL × URL × Nat) (c : Char) : URL × URL × Nat :=
  let (first, slashes) :=
    if c = '/' then (st.1, st.2.2 + 1)
    else if st.2.2 = 2 then (st.1 ++ [c], st.2.2)
    else (st.1, st.2.2)
  let second := if 3 ≤ slashes then st.2.1 ++ [c] else st.2.1
  (first, second, slashes)

/-- The literal `"https://"` the source tests the URL against. -/
def httpsScheme : URL := ("https://").data

/-- The literal `"http://"`. -/
def httpScheme : URL := ("http://").data

/-- Default port suffix `":443"`. -/
def port443 : URL := (":443").data

/-- Default port suffix `":80"`. -/
def port80 : URL := (":80").data

/-- `parse_url` from `src/http.rs`: scan the characters, default the
resource to `"/"`, set `https` iff the input starts with `"https://"`,
and append the default port when the authority has no `':'`. -/
def parse_url (url : URL) : URL × URL × Bool :=
  let st := url.foldl parse_url_step ([], [], 0)
  let first := st.1
  let second := if st.2.1.isEmpty then ['/'] else st.2.1
  let https := httpsScheme.isPrefixOf url
  let first := if first.contains ':' then first else first ++ (if https then port443 else port80)
  (first, second, https)

/-- Scanning a slash-free segment while fewer than two slashes have been
seen changes nothing: scheme characters are discarded. -/
theorem foldl_step_low (l : List Char) (f s : URL) (n : Nat)
    (hl : '/' ∉ l) (hn : n < 2) :
    l.foldl parse_url_step (f, s, n) = (f, s, n) := by
  induction l with
  | nil => rfl
  | cons c t ih =>
    have hc : c ≠ '/' := fun h => hl (h ▸ List.mem_cons_self c t)
    have h2 : n ≠ 2 := by omega
    have h3 : ¬ 3 ≤ n := by omega
    rw [List.foldl_cons, show parse_url_step (f, s, n) c = (f, s, n) by
      simp [parse_url_step, hc, h2, h3]]
    exact ih (fun h => hl (List.mem_cons_of_mem c h))

/-- Scanning a slash-free segment right after the second slash appends
every character to the authority. -/
theorem foldl_step_auth (l : List Char) (f s : URL) (hl : '/' ∉ l) :
    l.foldl parse_url_step (f, s, 2) = (f ++ l, s, 2) := by
  induction l generalizing f with
  | nil => simp
  | cons c t ih =>
    have hc : c ≠ '/' := fun h => hl (h ▸ List.mem_cons_self c t)
    rw [List.foldl_cons, show parse_url_step (f, s, 2) c = (f ++ [c], s, 2) by
      simp [parse_url_step, hc]]
    rw [ih (f ++ [c]) (fun h => hl (List.mem_cons_of_mem c h))]
    simp

/-- Once at least three slashes have been seen, every further character
(slash or not) is appended to the resource and the authority is frozen. -/
theorem foldl_step_res (l : List Char) (f s : URL) (n : Nat) (hn : 3 ≤ n) :
    ∃ m, 3 ≤ m ∧ l.foldl parse_url_step (f, s, n) = (f, s ++ l, m) := by
  induction l generalizing s n with
  | nil => exact ⟨n, hn, by simp⟩
  | cons c t ih =>
    by_cases hc : c = '/'
    · subst hc
      have h3 : 3 ≤ n + 1 := by omega
      rw [List.foldl_cons, show parse_url_step (f, s, n) '/' = (f, s ++ ['/'], n + 1) by
        simp [parse_url_step, h3]]
      obtain ⟨m, hm, he⟩ := ih (s ++ ['/']) (n + 1) h3
      exact ⟨m, hm, by rw [he]; simp⟩
    · have h2 : n ≠ 2 := by omega
      rw [List.foldl_cons, show parse_url_step (f, s, n) c = (f, s ++ [c], n) by
        simp [parse_url_step, hc, h2, hn]]
      obtain ⟨m, hm, he⟩ := ih (s ++ [c]) n hn
      exact ⟨m, hm, by rw [he]; simp⟩

/-- The scheme separator `"://"` takes the scan from zero slashes to two,
touching neither accumulator. -/
theorem foldl_step_sep (f s : URL) :
    [':', '/', '/'].foldl parse_url_step (f, s, 0) = (f, s, 2) := rfl

/-- C1: For every URL of the form `scheme://host[:port]/path`, `parse_url`
returns the authority (with `":443"` appended when the input starts with
`"https://"`, `":80"` otherwise, whenever the authority has no `':'`), the
path (defaulting to `"/"` when empty), and the encryption flag, which is true
iff the input literally starts with `"https://"`; in particular
`parse_url "http://example.com" = ("example.com:80", "/", false)` and
`parse_url "https://example.com:8443/x/y" = ("example.com:8443", "/x/y", true)`. -/
theorem parse_url_correct (scheme hostport rest : List Char)
    (hs : '/' ∉ scheme) (hh : '/' ∉ hostport)
    (hr : rest = [] ∨ ∃ t, rest = '/' :: t) :
    (parse_url (scheme ++ ':' :: '/' :: '/' :: (hostport ++ rest)) =
      ((if hostport.contains ':' then hostport
        else hostport ++
          (if httpsScheme.isPrefixOf (scheme ++ ':' :: '/' :: '/' :: (hostport ++ rest))
           then port443 else port80)),
       (if rest.isEmpty then ['/'] else rest),
       httpsScheme.isPrefixOf (scheme ++ ':' :: '/' :: '/' :: (hostport ++ rest)))) ∧
    parse_url (("http://example.com").data) = ((("example.com:80").data), ['/'], false) ∧
    parse_url (("https://example.com:8443/x/y").data) =
      ((("example.com:8443").data), (("/x/y").data), true) := by
  refine ⟨?_, by decide, by decide⟩
  rcases hr with hr | ⟨t, hr⟩
  · subst hr
    have hfold : (scheme ++ ':' :: '/' :: '/' :: (hostport ++ [])).foldl
        parse_url_step ([], [], (0 : Nat)) = (hostport, [], 2) := by
      have h0 : scheme ++ ':' :: '/' :: '/' :: (hostport ++ [])
          = scheme ++ ([':', '/', '/'] ++ hostport) := by simp
      rw [h0, List.foldl_append, List.foldl_append,
        foldl_step_low scheme [] [] 0 hs (by omega), foldl_step_sep,
        foldl_step_auth hostport [] [] hh]
      simp
    simp only [parse_url, hfold]
  · subst hr
    obtain ⟨m, hm, he⟩ := foldl_step_res t hostport ['/'] 3 (by omega)
    have hfold : (scheme ++ ':' :: '/' :: '/' :: (hostport ++ '/' :: t)).foldl
        parse_url_step ([], [], (0 : Nat)) = (hostport, '/' :: t, m) := by
      have h0 : scheme ++ ':' :: '/' :: '/' :: (hostport ++ '/' :: t)
          = scheme ++ ([':', '/', '/'] ++ (hostport ++ '/' :: t)) := rfl
      rw [h0, List.foldl_append, List.foldl_append,
        foldl_step_low scheme [] [] 0 hs (by omega), foldl_step_sep,
        List.foldl_append, foldl_step_auth hostport [] [] hh]
      rw [List.foldl_cons, show parse_url_step ([] ++ hostport, [], 2) '/'
          = ([] ++ hostport, ['/'], 3) by simp [parse_url_step]]
      simpa using he
    simp only [parse_url, hfold]

/-- Witness for `parse_url_correct` at `scheme = "http"`, `host = "example.com"`,
empty path. -/
theorem parse_url_correct_witness :
    parse_url (("http://example.com").data) = ((("example.com:80").data), ['/'], false) :=
  (parse_url_correct (("http").data) (("example.com").data) []
    (by decide) (by decide) (Or.inl rfl)).2.1

/-! ## `src/http.rs`: Status classification (C7) -/

/-- C7: `Status::from` classifies by numeric range alone — 1xx Info,
2xx Success, 3xx Redirect, 4xx ClientError, 5xx ServerError — every code
outside 100–599 falls into the ServerError band, and converting back to an
integer returns exactly the input. -/
theorem status_classification (i : Int) :
    (100 ≤ i ∧ i < 200 → Status.fromCode i = Status.Info i) ∧
    (200 ≤ i ∧ i < 300 → Status.fromCode i = Status.Success i) ∧
    (300 ≤ i ∧ i < 400 → Status.fromCode i = Status.Redirect i) ∧
    (400 ≤ i ∧ i < 500 → Status.fromCode i = Status.ClientError i) ∧
    (500 ≤ i ∧ i < 600 → Status.fromCode i = Status.ServerError i) ∧
    ((i < 100 ∨ 600 ≤ i) → Status.fromCode i = Status.ServerError i) ∧
    Status.toCode (Status.fromCode i) = i := by
  refine ⟨fun h => ?_, fun h => ?_, fun h => ?_, fun h => ?_, fun h => ?_, fun h => ?_, ?_⟩
  · unfold Status.fromCode; rw [if_pos (by omega)]
  · unfold Status.fromCode; rw [if_neg (by omega), if_pos (by omega)]
  · unfold Status.fromCode; rw [if_neg (by omega), if_neg (by omega), if_pos (by omega)]
  · unfold Status.fromCode
    rw [if_neg (by omega), if_neg (by omega), if_neg (by omega), if_pos (by omega)]
  · unfold Status.fromCode
    rw [if_neg (by omega), if_neg (by omega), if_neg (by omega), if_neg (by omega)]
  · unfold Status.fromCode
    rw [if_neg (by omega), if_neg (by omega), if_neg (by omega), if_neg (by omega)]
  · unfold Status.fromCode
    split_ifs <;> rfl

/-- Witness for `status_classification`: 418 is a ClientError, 650 (outside
100–599) falls into the ServerError band, and both round-trip. -/
theorem status_classification_witness :
    Status.fromCode 418 = Status.ClientError 418 ∧
    Status.fromCode 650 = Status.ServerError 650 ∧
    Status.toCode (Status.fromCode 650) = 650 :=
  ⟨(status_classification 418).2.2.2.1 (by omega),
   (status_classification 650).2.2.2.2.2.1 (Or.inr (by omega)),
   (status_classification 650).2.2.2.2.2.2⟩

/-! ## `src/http.rs`: Method and Request (C2) -/

/-- `enum Method` from `src/http.rs`. -/
inductive Method where
  | Get | Head | Post | Put | Delete | Connect | Options | Trace | Patch
  | Custom : List Char → Method
deriving DecidableEq, Repr

/-- `impl fmt::Display for Method`: the string embedded in the request line. -/
def methodChars : Method → List Char
  | Method.Get => ("GET").data
  | Method.Head => ("HEAD").data
  | Method.Post => ("POST").data
  | Method.Put => ("PUT").data
  | Method.Delete => ("DELETE").data
  | Method.Connect => ("CONNECT").data
  | Method.Options => ("OPTIONS").data
  | Method.Trace => ("TRACE").data
  | Method.Patch => ("PATCH").data
  | Method.Custom s => s

/-- `struct Request` from `src/http.rs` (`timeout: Option<u64>` as `Option Nat`). -/
structure Request where
  method : Method
  host : URL
  resource : URL
  headers : Headers
  body : Option (List Char)
  timeout : Option Nat
  https : Bool
deriving DecidableEq, Repr

/-- `Request::new`: parse the URL and start with empty headers, no body,
no timeout. -/
def Request.new (method : Method) (url : URL) : Request :=
  let p := parse_url url
  { method := method, host := p.1, resource := p.2.1, headers := [],
    body := none, timeout := none, https := p.2.2 }

/-- `Request::with_header`: insert (or overwrite) one header. -/
def with_header (r : Request) (k v : URL) : Request :=
  { r with headers := insertHeader r.headers k v }

/-- `Request::with_timeout`. -/
def with_timeout (r : Request) (t : Nat) : Request :=
  { r with timeout := some t }

/-- The header name `"Content-Length"`. -/
def contentLengthKey : URL := ("Content-Length").data

/-- `Request::with_body`: store the body and set `Content-Length` to its
byte length (`format!("{}", body.len())`). -/
def with_body (r : Request) (b : List Char) : Request :=
  let body_length := b.length
  with_header { r with body := some b } contentLengthKey (Nat.repr body_length).data

/-- The literal `" HTTP/1.1\r\nHost: "` between resource and host in the
request line (from `format!("{} {} HTTP/1.1\r\nHost: {}\r\n", ...)`). -/
def lineMid : List Char := (" HTTP/1.1\r\nHost: ").data

/-- `"\r\n"`. -/
def crlf : List Char := ['\r', '\n']

/-- `": "` between a header key and its value. -/
def colonSp : List Char := (": ").data

/-- `Request::into_string`: the serialized request — request line and Host
header, then one line per header in the mapping, a blank line, and the body
if one is set. -/
def into_string (r : Request) : List Char :=
  let http := methodChars r.method ++ [' '] ++ r.resource ++ lineMid ++ r.host ++ crlf
  let http := r.headers.foldl (fun acc kv => acc ++ kv.1 ++ colonSp ++ kv.2 ++ crlf) http
  let http := http ++ crlf
  match r.body with
  | some b => http ++ b
  | none => http

/-- The header block of the serialization: one `"<Key>: <Value>\r\n"` line
per entry, in mapping order. -/
def headerLines : Headers → List Char
  | [] => []
  | (k, v) :: rest => k ++ colonSp ++ v ++ crlf ++ headerLines rest

/-- Inserting a header makes it the value looked up for its key,
whether or not the key was present before. -/
theorem headerLookup_insert (hs : Headers) (k v : URL) :
    headerLookup (insertHeader hs k v) k = some v := by
  induction hs with
  | nil => simp [insertHeader, headerLookup]
  | cons p rest ih =>
    obtain ⟨k', v'⟩ := p
    by_cases hk : k' = k
    · simp [insertHeader, headerLookup, hk]
    · simp [insertHeader, headerLookup, hk, ih]

/-- Inserting one key leaves the lookup of every other key unchanged. -/
theorem headerLookup_insert_ne (hs : Headers) (k v k' : URL) (h : k ≠ k') :
    headerLookup (insertHeader hs k v) k' = headerLookup hs k' := by
  induction hs with
  | nil => simp [insertHeader, headerLookup, h]
  | cons p rest ih =>
    obtain ⟨k0, v0⟩ := p
    by_cases hk : k0 = k
    · subst hk
      simp [insertHeader, headerLookup, h]
    · simp only [insertHeader, if_neg hk, headerLookup]
      by_cases hk' : k0 = k' <;> simp [hk', ih]

/-- The header fold of `into_string` appends exactly `headerLines` to its
accumulator. -/
theorem foldl_headerLines (hs : Headers) (pre : List Char) :
    hs.foldl (fun acc kv => acc ++ kv.1 ++ colonSp ++ kv.2 ++ crlf) pre
      = pre ++ headerLines hs := by
  induction hs generalizing pre with
  | nil => simp [headerLines]
  | cons p rest ih =>
    obtain ⟨k, v⟩ := p
    rw [List.foldl_cons, ih]
    simp [headerLines]

/-- C2: `with_body` with content of length `N` sets a `Content-Length`
header equal to `N` (overwriting any existing one), and `into_string`
serializes the request as exactly
`"<METHOD> <resource> HTTP/1.1\r\nHost: <authority>\r\n"`, one
`"<Key>: <Value>\r\n"` line per header, `"\r\n"`, then the body, so the byte
count after the blank-line separator equals `N`. -/
theorem with_body_serialization (r : Request) (b : List Char) :
    headerLookup (with_body r b).headers contentLengthKey = some ((Nat.repr b.length).data) ∧
    into_string (with_body r b) =
      methodChars r.method ++ [' '] ++ r.resource ++ lineMid ++ r.host ++ crlf
        ++ headerLines (with_body r b).headers ++ crlf ++ b ∧
    (into_string (with_body r b)).length =
      (methodChars r.method ++ [' '] ++ r.resource ++ lineMid ++ r.host ++ crlf
        ++ headerLines (with_body r b).headers ++ crlf).length + b.length := by
  have hhd : (with_body r b).headers
      = insertHeader r.headers contentLengthKey (Nat.repr b.length).data := rfl
  have hbody : (with_body r b).body = some b := rfl
  have hser : into_string (with_body r b) =
      methodChars r.method ++ [' '] ++ r.resource ++ lineMid ++ r.host ++ crlf
        ++ headerLines (with_body r b).headers ++ crlf ++ b := by
    have hm : (with_body r b).method = r.method := rfl
    have hr : (with_body r b).resource = r.resource := rfl
    have hh : (with_body r b).host = r.host := rfl
    simp only [into_string, hbody, hm, hr, hh]
    rw [foldl_headerLines]
  refine ⟨?_, hser, ?_⟩
  · rw [hhd]
    exact headerLookup_insert r.headers contentLengthKey (Nat.repr b.length).data
  · rw [hser]
    simp
    omega

/-- Witness for `with_body_serialization`: a one-byte body yields
`Content-Length: 1`. -/
theorem with_body_serialization_witness :
    headerLookup (with_body (Request.new Method.Get (("http://example.com").data))
        (("Q").data)).headers contentLengthKey = some ((Nat.repr 1).data) :=
  (with_body_serialization (Request.new Method.Get (("http://example.com").data))
    (("Q").data)).1

/-! ## `src/http.rs`: status line and response parsing (C3, C4, C9) -/

/-- Decimal digit-string parsing shared by Rust's integer `from_str`:
the string must be non-empty and all ASCII digits. -/
def digitsToNat? (l : List Char) : Option Nat :=
  if l = [] then none
  else if l.all Char.isDigit then
    some (l.foldl (fun a c => a * 10 + (c.toNat - 48)) 0)
  else none

/-- `str::parse::<i32>`: optional single sign, digits, checked against the
`i32` range. -/
def parse_i32 (l : List Char) : Option Int :=
  match l with
  | '+' :: rest => (digitsToNat? rest).bind fun n =>
      if n ≤ 2 ^ 31 - 1 then some (Int.ofNat n) else none
  | '-' :: rest => (digitsToNat? rest).bind fun n =>
      if n ≤ 2 ^ 31 then some (- Int.ofNat n) else none
  | _ => (digitsToNat? l).bind fun n =>
      if n ≤ 2 ^ 31 - 1 then some (Int.ofNat n) else none

/-- `str::parse::<u64>`: optional `'+'`, digits, checked against the `u64`
range. -/
def parse_u64 (l : List Char) : Option Nat :=
  match l with
  | '+' :: rest => (digitsToNat? rest).bind fun n =>
      if n < 2 ^ 64 then some n else none
  | _ => (digitsToNat? l).bind fun n =>
      if n < 2 ^ 64 then some n else none

/-- The fallback reason phrase of `parse_status_line`. -/
def noStatusReason : List Char := ("Server did not provide a status line").data

/-- `parse_status_line` from `src/http.rs`: split on single spaces, parse the
second token as the status code and take the third as the reason; on a
missing second token, a failed integer parse, or a missing third token, fall
back to 503 / `"Server did not provide a status line"`. -/
def parse_status_line (line : List Char) : Status × List Char :=
  match (line.splitOn ' ')[1]? with
  | some code =>
    match parse_i32 code with
    | some c =>
      match (line.splitOn ' ')[2]? with
      | some reason => (Status.fromCode c, reason)
      | none => (Status.fromCode 503, noStatusReason)
    | none => (Status.fromCode 503, noStatusReason)
  | none => (Status.fromCode 503, noStatusReason)

/-- `str::trim`: strip whitespace from both ends. -/
def trimChars (l : List Char) : List Char :=
  ((l.dropWhile Char.isWhitespace).reverse.dropWhile Char.isWhitespace).reverse

/-- `BufRead::read_line` on a pure byte list: the first line (up to and
including `'\n'`, or all of it at EOF) and the unread remainder. -/
def readLine : List Char → List Char × List Char
  | [] => ([], [])
  | c :: rest =>
    if c = '\n' then ([c], rest)
    else
      let p := readLine rest
      (c :: p.1, p.2)

theorem readLine_append (s : List Char) : (readLine s).1 ++ (readLine s).2 = s := by
  induction s with
  | nil => rfl
  | cons c rest ih =>
    by_cases hc : c = '\n' <;> simp [readLine, hc, ih]

theorem readLine_rest_lt (s : List Char) (h : (readLine s).1 ≠ []) :
    (readLine s).2.length < s.length := by
  have ha := readLine_append s
  have hl : (readLine s).1.length + (readLine s).2.length = s.length := by
    rw [← List.length_append, ha]
  cases hline : (readLine s).1 with
  | nil => exact absurd hline h
  | cons c t => rw [hline] at hl; simp at hl; omega

/-- The header-reading loop of `Response::from_stream`, with explicit fuel
(the fuel is structural so the definition evaluates in the kernel; fuel
`s.length` is always enough, see `readHeadersGo_congr`). Reads trimmed lines
until a line that trims to empty (or EOF), returning the trimmed lines and
the unread remainder of the stream. -/
def readHeadersGo : Nat → List Char → List (List Char) × List Char
  | 0, _ => ([], [])
  | Nat.succ n, s =>
    let line := (readLine s).1
    let rest := (readLine s).2
    if trimChars line = [] then ([], rest)
    else ((trimChars line) :: (readHeadersGo n rest).1, (readHeadersGo n rest).2)

/-- Any fuel of at least `s.length` computes the same header block: the fuel
is an artifact of the encoding, not of the loop. -/
theorem readHeadersGo_congr (fuel : Nat) : ∀ (fuel' : Nat) (s : List Char),
    s.length ≤ fuel → s.length ≤ fuel' →
    readHeadersGo fuel s = readHeadersGo fuel' s := by
  induction fuel with
  | zero =>
    intro fuel' s h h'
    have hs : s = [] := List.length_eq_zero.mp (by omega)
    subst hs
    cases fuel' with
    | zero => rfl
    | succ m => simp [readHeadersGo, readLine, trimChars]
  | succ n ih =>
    intro fuel' s h h'
    cases s with
    | nil =>
      cases fuel' with
      | zero => simp [readHeadersGo, readLine, trimChars]
      | succ m => rfl
    | cons c t =>
      cases fuel' with
      | zero => simp at h'
      | succ m =>
        simp only [readHeadersGo]
        by_cases hb : trimChars (readLine (c :: t)).1 = []
        · simp [hb]
        · have hne : (readLine (c :: t)).1 ≠ [] := by
            intro he; apply hb; rw [he]; rfl
          have hlt := readLine_rest_lt (c :: t) hne
          have h1 : (readLine (c :: t)).2.length ≤ n := by
            simp at h hlt; omega
          have h2 : (readLine (c :: t)).2.length ≤ m := by
            simp at h' hlt; omega
          rw [if_neg hb, if_neg hb, ih m (readLine (c :: t)).2 h1 h2]

/-- The header-reading loop of `Response::from_stream` on a stream. -/
def readHeaders (s : List Char) : List (List Char) × List Char :=
  readHeadersGo s.length s

/-- `readHeaders` satisfies the defining equation of the source's loop:
read a line; if it trims to empty stop, else keep the trimmed line and
continue on the remainder. -/
theorem readHeaders_eq (s : List Char) :
    readHeaders s =
      (if trimChars (readLine s).1 = [] then ([], (readLine s).2)
       else ((trimChars (readLine s).1) :: (readHeaders (readLine s).2).1,
             (readHeaders (readLine s).2).2)) := by
  unfold readHeaders
  cases hs : s with
  | nil => simp [readHeadersGo, readLine, trimChars]
  | cons c t =>
    simp only [List.length_cons, readHeadersGo]
    by_cases hb : trimChars (readLine (c :: t)).1 = []
    · simp [hb]
    · have hne : (readLine (c :: t)).1 ≠ [] := by
        intro he; apply hb; rw [he]; rfl
      have hlt := readLine_rest_lt (c :: t) hne
      have h1 : (readLine (c :: t)).2.length ≤ t.length := by simp at hlt; omega
      rw [if_neg hb, if_neg hb,
        readHeadersGo_congr t.length (readLine (c :: t)).2.length (readLine (c :: t)).2
          h1 (le_refl _)]

/-- `str::find(':')`: index of the first colon, if any. -/
def findColon : List Char → Option Nat
  | [] => none
  | c :: t => if c = ':' then some 0 else (findColon t).map (· + 1)

theorem findColon_none (l : List Char) (h : ':' ∉ l) : findColon l = none := by
  induction l with
  | nil => rfl
  | cons c t ih =>
    have hc : ¬ (c = ':') := fun e => h (e ▸ List.mem_cons_self c t)
    simp [findColon, hc, ih (fun m => h (List.mem_cons_of_mem c m))]

/-- One header line of `from_stream`'s map: split at the first `':'` into key
and trimmed value; a line with no `':'` hits `.unwrap()` on `None`, a panic,
modelled as the error case. -/
def parseHeaderLine (l : List Char) : Except Unit (List Char × List Char) :=
  match findColon l with
  | some idx => Except.ok (l.take idx, trimChars (l.drop (idx + 1)))
  | none => Except.error ()

/-- The key/value pairs of the header block, in line order; any line without
a `':'` aborts the whole parse. -/
def headerPairsOf : List (List Char) → Except Unit (List (List Char × List Char))
  | [] => Except.ok []
  | l :: rest =>
    match parseHeaderLine l with
    | Except.ok p =>
      match headerPairsOf rest with
      | Except.ok ps => Except.ok (p :: ps)
      | Except.error e => Except.error e
    | Except.error e => Except.error e

/-- `collect::<HashMap<_, _>>()` over the pairs: fold them into the mapping,
so a later duplicate key overwrites an earlier one. -/
def collectHeaders (ps : List (List Char × List Char)) : Headers :=
  ps.foldl (fun m p => insertHeader m p.1 p.2) []

/-- `struct Response` (the body is the unread remainder of the stream). -/
structure Response where
  status : Status
  reason_phrase : List Char
  headers : Headers
  body : List Char
deriving DecidableEq, Repr

/-- `Response::from_stream`: read the status line, parse it leniently, read
the header block, build the header mapping (a line without `':'` aborts),
and keep the unread remainder as the body. -/
def from_stream (s : List Char) : Except Unit Response :=
  let line1 := (readLine s).1
  let rest := (readLine s).2
  let sr := parse_status_line line1
  let hb := readHeaders rest
  match headerPairsOf hb.1 with
  | Except.ok ps =>
      Except.ok { status := sr.1, reason_phrase := sr.2,
                  headers := collectHeaders ps, body := hb.2 }
  | Except.error e => Except.error e

/-- C3: If the status line is missing or its second space-separated token
does not parse as an integer (or no third token follows a parsed code),
`parse_status_line` returns 503 with reason
`"Server did not provide a status line"`; and response parsing never fails on
account of the status line: whenever the header block is well formed,
`from_stream` succeeds. -/
theorem status_line_fallback (line : List Char)
    (h : (line.splitOn ' ')[1]? = none ∨
         (∃ code, (line.splitOn ' ')[1]? = some code ∧ parse_i32 code = none) ∨
         (∃ code n, (line.splitOn ' ')[1]? = some code ∧ parse_i32 code = some n ∧
            (line.splitOn ' ')[2]? = none)) :
    parse_status_line line = (Status.fromCode 503, noStatusReason) ∧
    (∀ s ps, headerPairsOf (readHeaders (readLine s).2).1 = Except.ok ps →
      ∃ r, from_stream s = Except.ok r) := by
  constructor
  · rcases h with h | ⟨code, hc, hp⟩ | ⟨code, n, hc, hp, h2⟩
    · simp [parse_status_line, h]
    · simp [parse_status_line, hc, hp]
    · simp [parse_status_line, hc, hp, h2]
  · intro s ps hp
    exact ⟨{ status := (parse_status_line (readLine s).1).1,
             reason_phrase := (parse_status_line (readLine s).1).2,
             headers := collectHeaders ps,
             body := (readHeaders (readLine s).2).2 },
           by simp [from_stream, hp]⟩

/-- Witness for `status_line_fallback`: the empty status line falls back to
503, and a stream with a garbled status line but a well-formed header block
still parses successfully. -/
theorem status_line_fallback_witness :
    parse_status_line [] = (Status.fromCode 503, noStatusReason) ∧
    (∃ r, from_stream (("junk\r\nA: 1\r\n\r\n").data) = Except.ok r) := by
  have h := status_line_fallback [] (Or.inl (by decide))
  exact ⟨h.1, h.2 (("junk\r\nA: 1\r\n\r\n").data)
    [((("A").data), (("1").data))] (by decide)⟩

/-- A header block containing a line without `':'` makes the pair extraction
abort. -/
theorem headerPairsOf_error (lines : List (List Char)) (l : List Char)
    (hl : l ∈ lines) (hc : ':' ∉ l) :
    headerPairsOf lines = Except.error () := by
  induction lines with
  | nil => cases hl
  | cons l0 rest ih =>
    rcases List.mem_cons.mp hl with h0 | h0
    · subst h0
      simp [headerPairsOf, parseHeaderLine, findColon_none l hc]
    · have herr := ih h0
      cases hpl : parseHeaderLine l0 with
      | ok p => simp [headerPairsOf, hpl, herr]
      | error e => cases e; simp [headerPairsOf, hpl]

/-- C4: A response stream whose header block contains a (non-empty) line
with no `':'` makes `Response::from_stream` fail with the malformed-response
error (the `.unwrap()` panic on the missing separator, modelled as the error
case): the line is never silently skipped. -/
theorem missing_colon_error (s : List Char)
    (h : ∃ l ∈ (readHeaders (readLine s).2).1, ':' ∉ l) :
    from_stream s = Except.error () := by
  obtain ⟨l, hl, hc⟩ := h
  have herr := headerPairsOf_error _ l hl hc
  simp [from_stream, herr]

/-- Witness for `missing_colon_error`: a stream whose second header line has
no colon. -/
theorem missing_colon_error_witness :
    from_stream (("HTTP/1.1 200 OK\r\nGood: yes\r\nBadHeader\r\n\r\n").data)
      = Except.error () :=
  missing_colon_error (("HTTP/1.1 200 OK\r\nGood: yes\r\nBadHeader\r\n\r\n").data)
    (by decide)

/-- Folding header pairs into the mapping makes lookup return the value of
the last pair whose key matches, falling back to the initial mapping. -/
theorem headerLookup_fold_insert (ps : List (URL × URL)) (m : Headers) (k : URL) :
    headerLookup (ps.foldl (fun acc p => insertHeader acc p.1 p.2) m) k
      = ((ps.reverse.find? (fun p => p.1 == k)).map Prod.snd).or (headerLookup m k) := by
  induction ps generalizing m with
  | nil => simp
  | cons p t ih =>
    rw [List.foldl_cons, ih, List.reverse_cons, List.find?_append]
    cases hf : t.reverse.find? (fun q => q.1 == k) with
    | some q => simp [hf]
    | none =>
      simp only [hf, Option.none_or]
      by_cases hk : p.1 = k
      · subst hk
        rw [headerLookup_insert]
        simp
      · rw [headerLookup_insert_ne _ _ _ _ hk]
        have hb : (p.1 == k) = false := by simp [hk]
        simp [List.find?, hb]

/-- C9: Parsing two independent copies of the same response bytes is
deterministic — same status, reason phrase and header mapping — and in any
run the mapping's value for a key is the value of the *last* header line with
that key. -/
theorem from_stream_two_runs (s1 s2 : List Char) (h : s1 = s2) :
    from_stream s1 = from_stream s2 ∧
    (∀ r ps, from_stream s1 = Except.ok r →
      headerPairsOf (readHeaders (readLine s1).2).1 = Except.ok ps →
      r.headers = collectHeaders ps ∧
      ∀ k, headerLookup r.headers k
        = (ps.reverse.find? (fun p => p.1 == k)).map Prod.snd) := by
  subst h
  refine ⟨rfl, ?_⟩
  intro r ps hr hp
  have hok : from_stream s1 = Except.ok
      { status := (parse_status_line (readLine s1).1).1,
        reason_phrase := (parse_status_line (readLine s1).1).2,
        headers := collectHeaders ps,
        body := (readHeaders (readLine s1).2).2 } := by
    simp [from_stream, hp]
  have hXr := hok.symm.trans hr
  injection hXr with hX
  have hrh : r.headers = collectHeaders ps := by rw [← hX]
  refine ⟨hrh, fun k => ?_⟩
  rw [hrh]
  unfold collectHeaders
  rw [headerLookup_fold_insert]
  simp [headerLookup]

/-- Witness for `from_stream_two_runs`: a stream with a duplicate header key
`A`; the mapping holds the later value `2`. -/
theorem from_stream_two_runs_witness :
    ∃ r, from_stream (("HTTP/1.1 200 OK\r\nA: 1\r\nA: 2\r\n\r\nbody").data)
        = Except.ok r ∧
      headerLookup r.headers (("A").data) = some (("2").data) := by
  have h := (from_stream_two_runs
    (("HTTP/1.1 200 OK\r\nA: 1\r\nA: 2\r\n\r\nbody").data)
    (("HTTP/1.1 200 OK\r\nA: 1\r\nA: 2\r\n\r\nbody").data) rfl).2
    { status := Status.Success 200, reason_phrase := ("OK\r\n").data,
      headers := [((("A").data), (("2").data))], body := ("body").data }
    [((("A").data), (("1").data)), ((("A").data), (("2").data))]
    (by decide) (by decide)
  refine ⟨{ status := Status.Success 200, reason_phrase := ("OK\r\n").data,
            headers := [((("A").data), (("2").data))], body := ("body").data },
          by decide, ?_⟩
  rw [h.2]
  decide

/-! ## `src/decoder.rs` (C5) -/

/-- `enum Decoder` from `src/decoder.rs`: a tagged wrapper; each variant
holds the byte source it wraps (for Gzip/Deflate, the source handed to the
decompressor). -/
inductive Decoder where
  | Identity : List Char → Decoder
  | Gzip : List Char → Decoder
  | Deflate : List Char → Decoder
deriving DecidableEq, Repr

/-- The header name `"Content-Encoding"`. -/
def contentEncodingKey : URL := ("Content-Encoding").data

/-- The header name `"Transfer-Encoding"`. -/
def transferEncodingKey : URL := ("Transfer-Encoding").data

/-- The literal `"gzip"`. -/
def gzipLit : URL := ("gzip").data

/-- The literal `"deflate"`. -/
def deflateLit : URL := ("deflate").data

/-- `detect_encoding`: `Content-Encoding`, else `Transfer-Encoding`, trimmed;
else the empty string. -/
def detect_encoding (headers : Headers) : List Char :=
  match headerLookup headers contentEncodingKey with
  | some v => trimChars v
  | none =>
    match headerLookup headers transferEncodingKey with
    | some tv => trimChars tv
    | none => []

/-- `Decoder::detect`: match the detected encoding case-sensitively against
`"gzip"` / `"deflate"`; on a match remove the `"Content-Encoding"` and
`"Content-Length"` headers and pick the matching variant, else Identity.
Returns the decoder and the mutated header mapping. -/
def Decoder.detect (headers : Headers) (b : List Char) : Decoder × Headers :=
  if detect_encoding headers = gzipLit then
    (Decoder.Gzip b,
     removeHeader (removeHeader headers contentEncodingKey) contentLengthKey)
  else if detect_encoding headers = deflateLit then
    (Decoder.Deflate b,
     removeHeader (removeHeader headers contentEncodingKey) contentLengthKey)
  else (Decoder.Identity b, headers)

/-- `impl Read for Decoder`, read to end: each variant forwards to its
wrapped source; Gzip/Deflate forward through the decompressor capability. -/
def Decoder.readAll (gzDec zlDec : List Char → List Char) : Decoder → List Char
  | Decoder.Gzip body => gzDec body
  | Decoder.Deflate body => zlDec body
  | Decoder.Identity body => body

/-- Removing one header key leaves the lookup of every other key unchanged. -/
theorem headerLookup_remove_ne (hs : Headers) (k k' : URL) (h : k ≠ k') :
    headerLookup (removeHeader hs k) k' = headerLookup hs k' := by
  induction hs with
  | nil => rfl
  | cons p rest ih =>
    obtain ⟨k0, v0⟩ := p
    by_cases hk : k0 = k
    · subst hk
      have hne : ¬ (k0 = k') := fun e => h e
      simp [removeHeader, headerLookup, hne]
    · simp only [removeHeader, if_neg hk, headerLookup]
      by_cases hk' : k0 = k'
      · simp [hk']
      · simp [hk', ih]

/-- C5 counterexample: When the match comes from `Transfer-Encoding`,
the Gzip variant is selected but the header that matched is *not* removed:
`detect` removes only the literal `"Content-Encoding"` name, so
`Transfer-Encoding: gzip` survives in the mapping, contradicting the claim
that the matched encoding header is removed. -/
theorem detect_matched_header_survives :
    (Decoder.detect [(transferEncodingKey, gzipLit)] []).1 = Decoder.Gzip [] ∧
    headerLookup (Decoder.detect [(transferEncodingKey, gzipLit)] []).2
      transferEncodingKey = some gzipLit := by decide

/-- C5 amended: `Decoder::detect` reads `Content-Encoding` (falling
back to `Transfer-Encoding`), trims it, and compares case-sensitively
against `"gzip"` and `"deflate"`; on a match it removes the
`"Content-Encoding"` header (by that literal name, even when the match came
from `Transfer-Encoding`, which is left untouched) and `"Content-Length"`
from the mapping and selects the Gzip/Deflate variant; on no match
(including an absent header) it selects Identity with the mapping unchanged,
and reading from Identity returns the underlying bytes unchanged. -/
theorem decoder_detect_correct (headers : Headers) (b : List Char) :
    (∀ v, headerLookup headers contentEncodingKey = some v →
       trimChars v = gzipLit →
       Decoder.detect headers b =
         (Decoder.Gzip b,
          removeHeader (removeHeader headers contentEncodingKey) contentLengthKey)) ∧
    (∀ v, headerLookup headers contentEncodingKey = some v →
       trimChars v = deflateLit →
       Decoder.detect headers b =
         (Decoder.Deflate b,
          removeHeader (removeHeader headers contentEncodingKey) contentLengthKey)) ∧
    (∀ tv, headerLookup headers contentEncodingKey = none →
       headerLookup headers transferEncodingKey = some tv →
       trimChars tv = gzipLit →
       Decoder.detect headers b =
         (Decoder.Gzip b,
          removeHeader (removeHeader headers contentEncodingKey) contentLengthKey) ∧
       headerLookup (Decoder.detect headers b).2 transferEncodingKey = some tv) ∧
    (∀ tv, headerLookup headers contentEncodingKey = none →
       headerLookup headers transferEncodingKey = some tv →
       trimChars tv = deflateLit →
       Decoder.detect headers b =
         (Decoder.Deflate b,
          removeHeader (removeHeader headers contentEncodingKey) contentLengthKey) ∧
       headerLookup (Decoder.detect headers b).2 transferEncodingKey = some tv) ∧
    (detect_encoding headers ≠ gzipLit → detect_encoding headers ≠ deflateLit →
       Decoder.detect headers b = (Decoder.Identity b, headers)) ∧
    (∀ gzDec zlDec, Decoder.readAll gzDec zlDec (Decoder.Identity b) = b) := by
  have hgz : ¬ (deflateLit = gzipLit) := by decide
  refine ⟨?_, ?_, ?_, ?_, ?_, fun _ _ => rfl⟩
  · intro v hv ht
    have he : detect_encoding headers = gzipLit := by simp [detect_encoding, hv, ht]
    simp [Decoder.detect, he]
  · intro v hv ht
    have he : detect_encoding headers = deflateLit := by simp [detect_encoding, hv, ht]
    simp [Decoder.detect, he, hgz]
  · intro tv hce htv ht
    have he : detect_encoding headers = gzipLit := by
      simp [detect_encoding, hce, htv, ht]
    have hd : Decoder.detect headers b =
        (Decoder.Gzip b,
         removeHeader (removeHeader headers contentEncodingKey) contentLengthKey) := by
      simp [Decoder.detect, he]
    refine ⟨hd, ?_⟩
    rw [hd]
    rw [headerLookup_remove_ne _ _ _ (by decide),
      headerLookup_remove_ne _ _ _ (by decide)]
    exact htv
  · intro tv hce htv ht
    have he : detect_encoding headers = deflateLit := by
      simp [detect_encoding, hce, htv, ht]
    have hd : Decoder.detect headers b =
        (Decoder.Deflate b,
         removeHeader (removeHeader headers contentEncodingKey) contentLengthKey) := by
      simp [Decoder.detect, he, hgz]
    refine ⟨hd, ?_⟩
    rw [hd]
    rw [headerLookup_remove_ne _ _ _ (by decide),
      headerLookup_remove_ne _ _ _ (by decide)]
    exact htv
  · intro h1 h2
    simp [Decoder.detect, h1, h2]

/-- Witness for `decoder_detect_correct`: a lone (untrimmed)
`Transfer-Encoding: " gzip"` header selects the Gzip variant and is left in
the mapping. -/
theorem decoder_detect_correct_witness :
    Decoder.detect [(transferEncodingKey, (' ' :: gzipLit))] []
        = (Decoder.Gzip [], [(transferEncodingKey, (' ' :: gzipLit))]) ∧
    headerLookup (Decoder.detect [(transferEncodingKey, (' ' :: gzipLit))] []).2
        transferEncodingKey = some (' ' :: gzipLit) := by
  have h := (decoder_detect_correct [(transferEncodingKey, (' ' :: gzipLit))] []).2.2.1
    (' ' :: gzipLit) (by decide) (by decide) (by decide)
  exact ⟨h.1.trans (by decide), h.2⟩

/-! ## `src/connection.rs` (C6, C8, C10) -/

/-- `struct Connection`. -/
structure Connection where
  request : Request
  timeout : Option Nat
deriving DecidableEq, Repr

/-- `Connection::new`: resolve the timeout as the request's explicit
timeout, or else the environment's `MINREQ_TIMEOUT` value parsed as `u64`
(`env` is that variable's value, `none` when absent). -/
def Connection.new (env : Option (List Char)) (request : Request) : Connection :=
  let timeout :=
    match request.timeout with
    | some t => some t
    | none =>
      match env with
      | some t => parse_u64 t
      | none => none
  { request := request, timeout := timeout }

/-- The read and write deadlines `create_tcp_stream` installs on the socket:
both set to the resolved timeout in seconds, or both left unset. -/
def create_tcp_stream_deadlines (timeout : Option Nat) : Option Nat × Option Nat :=
  match timeout with
  | some secs => (some secs, some secs)
  | none => (none, none)

/-- C8: The timeout used for the connection's read and write deadlines
is the request's explicit timeout if set (whatever the environment says),
otherwise the parsed environment default if present and parseable, otherwise
none; and both deadlines equal the resolved timeout. -/
theorem timeout_resolution (env : Option (List Char)) (req : Request) :
    (∀ t, req.timeout = some t →
       ∀ env', (Connection.new env' req).timeout = some t) ∧
    (req.timeout = none →
       (Connection.new env req).timeout = env.bind parse_u64) ∧
    create_tcp_stream_deadlines (Connection.new env req).timeout
      = ((Connection.new env req).timeout, (Connection.new env req).timeout) := by
  refine ⟨?_, ?_, ?_⟩
  · intro t ht env'
    simp [Connection.new, ht]
  · intro ht
    cases env <;> simp [Connection.new, ht]
  · cases h : (Connection.new env req).timeout <;>
      simp [create_tcp_stream_deadlines, h]

/-- Witness for `timeout_resolution`: an explicit 5-second request timeout
wins over `MINREQ_TIMEOUT=7`; without it the environment value is parsed. -/
theorem timeout_resolution_witness :
    (Connection.new (some (("7").data))
        (with_timeout (Request.new Method.Get (("http://example.com").data)) 5)).timeout
      = some 5 ∧
    (Connection.new (some (("7").data))
        (Request.new Method.Get (("http://example.com").data))).timeout
      = (some (("7").data)).bind parse_u64 := by
  have h := timeout_resolution (some (("7").data))
    (with_timeout (Request.new Method.Get (("http://example.com").data)) 5)
  have h2 := timeout_resolution (some (("7").data))
    (Request.new Method.Get (("http://example.com").data))
  exact ⟨h.1 5 rfl (some (("7").data)), h2.2.1 rfl⟩

/-- The header name `"Location"`. -/
def locationKey : URL := ("Location").data

/-- `Connection::handle_redirect`: with a `Location` header, rebuild the
target URL (taken verbatim when it carries an explicit scheme, else original
scheme ++ original host ++ location), re-parse it into the request's
host/resource/scheme, drop the body, and hand the request to the `send`
capability (the full dispatch pipeline); without a `Location` header, return
the redirect response itself. -/
def handle_redirect (send : Request → Except Unit Response)
    (req : Request) (resp : Response) : Except Unit Response :=
  match headerLookup resp.headers locationKey with
  | some loc =>
    let url :=
      if httpsScheme.isPrefixOf loc || httpScheme.isPrefixOf loc then loc
      else (if req.https then httpsScheme else httpScheme) ++ req.host ++ loc
    let p := parse_url url
    send { req with host := p.1, resource := p.2.1, https := p.2.2, body := none }
  | none => Except.ok resp

/-- The dispatch step of `Connection::send`: `raw` writes the serialized
request and parses the response; on a Redirect status the clone of the
original request goes through `handle_redirect` with the re-dispatch
capability `resend` (`Request::send`), any other status is returned as-is. -/
def send_dispatch (raw resend : Request → Except Unit Response)
    (req : Request) : Except Unit Response :=
  match raw req with
  | Except.ok resp =>
    match resp.status with
    | Status.Redirect _ => handle_redirect resend req resp
    | _ => Except.ok resp
  | Except.error e => Except.error e

/-- C6: For a dispatched request whose response status is in the
Redirect band: without a `Location` header the redirect response itself is
returned; with a `Location` carrying an explicit scheme the request's
host/resource/scheme are replaced from it, otherwise the location is treated
as an absolute path under the original host and scheme; the body is dropped,
and the caller gets the re-dispatched request's response, not the first
redirect response. -/
theorem redirect_dispatch (raw resend : Request → Except Unit Response)
    (req : Request) (resp : Response) (i : Int)
    (hraw : raw req = Except.ok resp) (hst : resp.status = Status.Redirect i) :
    (headerLookup resp.headers locationKey = none →
       send_dispatch raw resend req = Except.ok resp) ∧
    (∀ loc, headerLookup resp.headers locationKey = some loc →
       (httpsScheme.isPrefixOf loc || httpScheme.isPrefixOf loc) = true →
       send_dispatch raw resend req =
         resend { req with host := (parse_url loc).1,
                           resource := (parse_url loc).2.1,
                           https := (parse_url loc).2.2,
                           body := none }) ∧
    (∀ loc, headerLookup resp.headers locationKey = some loc →
       (httpsScheme.isPrefixOf loc || httpScheme.isPrefixOf loc) = false →
       send_dispatch raw resend req =
         resend { req with
           host := (parse_url ((if req.https then httpsScheme else httpScheme)
                      ++ req.host ++ loc)).1,
           resource := (parse_url ((if req.https then httpsScheme else httpScheme)
                      ++ req.host ++ loc)).2.1,
           https := (parse_url ((if req.https then httpsScheme else httpScheme)
                      ++ req.host ++ loc)).2.2,
           body := none }) := by
  have hd : send_dispatch raw resend req = handle_redirect resend req resp := by
    simp [send_dispatch, hraw, hst]
  refine ⟨?_, ?_, ?_⟩
  · intro hloc
    rw [hd]
    simp [handle_redirect, hloc]
  · intro loc hloc hscheme
    rw [hd]
    simp [handle_redirect, hloc, hscheme]
  · intro loc hloc hscheme
    rw [hd]
    simp [handle_redirect, hloc, hscheme]

/-- A transport capability that always delivers the same response. -/
def sendConst (r : Response) : Request → Except Unit Response :=
  fun _ => Except.ok r

/-- A concrete redirect response: 301 with `Location: /new`. -/
def redirectResp : Response :=
  { status := Status.Redirect 301, reason_phrase := ("Moved\r\n").data,
    headers := [(locationKey, ("/new").data)], body := [] }

/-- A concrete final response. -/
def finalResp : Response :=
  { status := Status.Success 200, reason_phrase := ("OK\r\n").data,
    headers := [], body := ("done").data }

/-- Witness for `redirect_dispatch`: with a relative `Location: /new`, the
dispatch returns the second (re-dispatched) response, not the 301. -/
theorem redirect_dispatch_witness :
    send_dispatch (sendConst redirectResp) (sendConst finalResp)
        (Request.new Method.Get (("http://example.com").data))
      = Except.ok finalResp := by
  have h := (redirect_dispatch (sendConst redirectResp) (sendConst finalResp)
    (Request.new Method.Get (("http://example.com").data)) redirectResp 301
    rfl rfl).2.2 (("/new").data) (by decide) (by decide)
  exact h

/-- C10: When a redirect is followed, `handle_redirect` changes only the
request's host, resource, scheme flag and body (set to `none`): the header
mapping, method and timeout are untouched, so the `Content-Length` header a
previous `with_body` installed is still sent with the redirected request
even though it carries no body. -/
theorem handle_redirect_frame (send : Request → Except Unit Response)
    (req : Request) (b : List Char) (resp : Response) (loc : URL)
    (h : headerLookup resp.headers locationKey = some loc) :
    ∃ req' : Request,
      handle_redirect send (with_body req b) resp = send req' ∧
      req'.headers = (with_body req b).headers ∧
      req'.method = req.method ∧
      req'.timeout = req.timeout ∧
      req'.body = none ∧
      headerLookup req'.headers contentLengthKey
        = some ((Nat.repr b.length).data) := by
  refine ⟨{ with_body req b with
      host := (parse_url (if httpsScheme.isPrefixOf loc || httpScheme.isPrefixOf loc
        then loc
        else (if (with_body req b).https then httpsScheme else httpScheme)
          ++ (with_body req b).host ++ loc)).1,
      resource := (parse_url (if httpsScheme.isPrefixOf loc || httpScheme.isPrefixOf loc
        then loc
        else (if (with_body req b).https then httpsScheme else httpScheme)
          ++ (with_body req b).host ++ loc)).2.1,
      https := (parse_url (if httpsScheme.isPrefixOf loc || httpScheme.isPrefixOf loc
        then loc
        else (if (with_body req b).https then httpsScheme else httpScheme)
          ++ (with_body req b).host ++ loc)).2.2,
      body := none }, ?_, rfl, rfl, rfl, rfl, ?_⟩
  · simp [handle_redirect, h]
  · exact headerLookup_insert req.headers contentLengthKey (Nat.repr b.length).data

/-- Witness for `handle_redirect_frame`: a one-byte body request redirected
by a 301 keeps its `Content-Length: 1` header while its body is dropped. -/
theorem handle_redirect_frame_witness :
    ∃ req' : Request,
      handle_redirect (sendConst finalResp)
          (with_body (Request.new Method.Get (("http://example.com").data))
            (("Q").data))
          redirectResp
        = sendConst finalResp req' ∧
      req'.headers = (with_body (Request.new Method.Get (("http://example.com").data))
          (("Q").data)).headers ∧
      req'.method = (Request.new Method.Get (("http://example.com").data)).method ∧
      req'.timeout = (Request.new Method.Get (("http://example.com").data)).timeout ∧
      req'.body = none ∧
      headerLookup req'.headers contentLengthKey
        = some ((Nat.repr (("Q").data).length).data) :=
  handle_redirect_frame (sendConst finalResp)
    (Request.new Method.Get (("http://example.com").data)) (("Q").data)
    redirectResp (("/new").data) (by decide)

end Minreq
